import Mathlib

/-!
Verification development for the GreenZone template engine.

The definitions below are a shallow embedding of the engine's core:
the json11 dynamic value model (`Json`), the context/scoping discipline,
and the loop construct `EachNode` (its `render`, `processFragment` and
`exitScope` members from `src/include/Node/EachNode.hpp`).

Modelling conventions:
* C++ machine values are mapped to Lean values; json11 stores numbers as
  `double`, but every number exercised here is an exact small integer
  (json11's `JsonInt` path), modelled as `Int`.
* The output `Writer` is an append-only sink; rendering is modelled by
  returning the text a node writes.
* A `Context` wraps exactly one dynamic object value and is mutated only
  by replacing that value (`setJson`); it is modelled by threading the
  wrapped `Json` value through rendering explicitly.
* Thrown exceptions (`Exception`, `TemplateSyntaxError`) are modelled with
  `Except String`, carrying the message/payload string.
-/

namespace GreenZone

/-- The json11 dynamic value model (`json11::Json`): null, number, bool,
string, array (`std::vector<Json>`) and object (`std::map<std::string, Json>`,
an ordered map; the entry list of a map built by the insertion operation
below is kept sorted by key, as `std::map` does). -/
inductive Json where
  | nul : Json
  | number (v : Int) : Json
  | boolean (b : Bool) : Json
  | str (s : String) : Json
  | arr (items : List Json) : Json
  | obj (entries : List (String × Json)) : Json

/-- Type discrimination `Json::is_null`. -/
def Json.is_null : Json → Bool
  | .nul => true
  | _ => false

/-- Type discrimination `Json::is_number`. -/
def Json.is_number : Json → Bool
  | .number _ => true
  | _ => false

/-- Type discrimination `Json::is_bool`. -/
def Json.is_bool : Json → Bool
  | .boolean _ => true
  | _ => false

/-- Type discrimination `Json::is_string`. -/
def Json.is_string : Json → Bool
  | .str _ => true
  | _ => false

/-- Type discrimination `Json::is_array`. -/
def Json.is_array : Json → Bool
  | .arr _ => true
  | _ => false

/-- Type discrimination `Json::is_object`. -/
def Json.is_object : Json → Bool
  | .obj _ => true
  | _ => false

/-- Modelled from the spec: `Json::number_value` returns the enclosed value
if this is a number, 0 otherwise (the body lives in the json11
implementation file, absent from the sources; the declaration's
documentation in `json11.hpp` states the fallback). -/
def Json.number_value : Json → Int
  | .number v => v
  | _ => 0

/-- Modelled from the spec: `Json::int_value`, the integer helper; on the
integer-valued numbers modelled here it coincides with `number_value`,
and returns 0 when the value is not a number. -/
def Json.int_value : Json → Int
  | .number v => v
  | _ => 0

/-- Modelled from the spec: `Json::bool_value` returns the enclosed value if
this is a boolean, `false` otherwise. -/
def Json.bool_value : Json → Bool
  | .boolean b => b
  | _ => false

/-- Modelled from the spec: `Json::string_value` returns the enclosed string
if this is a string, `""` otherwise. -/
def Json.string_value : Json → String
  | .str s => s
  | _ => ""

/-- Modelled from the spec: `Json::array_items` returns the enclosed vector
if this is an array, an empty vector otherwise. -/
def Json.array_items : Json → List Json
  | .arr items => items
  | _ => []

/-- Modelled from the spec: `Json::object_items` returns the enclosed map if
this is an object, an empty map otherwise. -/
def Json.object_items : Json → List (String × Json)
  | .obj entries => entries
  | _ => []

/-- Modelled from the spec: `Json::operator[](size_t)` returns `arr[i]` if
this is an array, and the null value otherwise or when `i` is out of
range. -/
def Json.atIndex : Json → Nat → Json
  | .arr items, i => items.getD i .nul
  | _, _ => .nul

/-- Modelled from the spec: `Json::operator[](const std::string &)` returns
`obj[key]` if this is an object, and the null value otherwise or when the
key is absent. -/
def Json.atKey : Json → String → Json
  | .obj entries, k => (entries.lookup k).getD .nul
  | _, _ => .nul

/-- Escaping applied by json11's string serializer to the characters that
can occur in the values exercised here. -/
def dumpEscape (s : String) : String :=
  s.data.foldl
    (fun acc c =>
      acc ++
        (if c = '\\' then "\\\\"
         else if c = '"' then "\\\""
         else if c = '\n' then "\\n"
         else if c = '\t' then "\\t"
         else if c = '\r' then "\\r"
         else String.singleton c))
    ""

mutual

/-- Modelled from the spec: `Json::dump`, the serialize-to-text routine of
the value model (its body lives in the json11 implementation file, absent
from the sources). Integer numbers print in decimal; arrays and objects
print their items separated by `", "`. -/
def Json.dump : Json → String
  | .nul => "null"
  | .number v => toString v
  | .boolean b => if b then "true" else "false"
  | .str s => "\"" ++ dumpEscape s ++ "\""
  | .arr items => "[" ++ String.intercalate ", " (Json.dumpList items) ++ "]"
  | .obj entries => "\x7b" ++ String.intercalate ", " (Json.dumpEntries entries) ++ "\x7d"

/-- Serialized forms of the items of an array, in order. -/
def Json.dumpList : List Json → List String
  | [] => []
  | x :: xs => Json.dump x :: Json.dumpList xs

/-- Serialized `"key": value` forms of the entries of an object, in order. -/
def Json.dumpEntries : List (String × Json) → List String
  | [] => []
  | (k, v) :: rest => ("\"" ++ dumpEscape k ++ "\": " ++ Json.dump v) :: Json.dumpEntries rest

end

/-- Lexicographic comparison of character lists: the strict order used by
`std::map<std::string, Json>`'s default `std::less<std::string>`
(byte-wise lexicographic; on the code points compared here this agrees
with code-point order). -/
def charListLtB : List Char → List Char → Bool
  | _, [] => false
  | [], _ :: _ => true
  | a :: as, b :: bs =>
    if a = b then charListLtB as bs else decide (a.toNat < b.toNat)

/-- Lexicographic strict order on strings (`std::string::operator<`). -/
def strLtB (a b : String) : Bool :=
  charListLtB a.data b.data

/-- Insert-or-assign on the ordered entry list of an object, the effect of
`std::map::operator[]` followed by assignment (`prototype[name] = value`):
the entry is placed at its ordered position, replacing an existing entry
with the same key. -/
def objInsert (k : String) (v : Json) : List (String × Json) → List (String × Json)
  | [] => [(k, v)]
  | (k1, v1) :: rest =>
    if strLtB k k1 then (k, v) :: (k1, v1) :: rest
    else if k = k1 then (k, v) :: rest
    else (k1, v1) :: objInsert k v rest

/-- An object's entry list built by inserting the given key/value pairs in
sequence into an initially empty `std::map`. -/
def buildObj (ps : List (String × Json)) : List (String × Json) :=
  ps.foldl (fun m kv => objInsert kv.1 kv.2 m) []

/-- Numeric value of a digit string. -/
def natOfDigits (cs : List Char) : Nat :=
  cs.foldl (fun n c => 10 * n + (c.toNat - '0'.toNat)) 0

/-- Modelled from the spec: the Expression Evaluator (`ExpressionParser`,
absent from the sources) evaluates an expression string against the
context's wrapped value and returns a dynamic value. The claims exercise
only integer literals and plain variable names: a nonempty all-digit
string evaluates to that number, any other string is looked up as a key
in the context's wrapped object, yielding the null value when absent (the
value model's default-on-absent convention). -/
def ExpressionParser.parse (ctx : Json) (expr : String) : Json :=
  if !expr.data.isEmpty && expr.data.all Char.isDigit then
    .number (natOfDigits expr.data)
  else
    ctx.atKey expr

/-- Modelled from the spec: the text a variable-interpolation node writes for
a value: strings print verbatim (`"Hello {{ name }}!"` with
`name = "World"` renders `"Hello World!"`), other values print their
serialized form (`{{ x }}` with `x = 1` renders `"1"`). -/
def printValue : Json → String
  | .str s => s
  | v => Json.dump v

/-- One executable unit of the parsed template tree: a literal text leaf, a
variable-interpolation leaf, or the loop construct (`EachNode`, holding
its `m_container` expression text, its `m_vars` variable-name list and
its owned children in document order). -/
inductive Node where
  | text (content : String) : Node
  | var (expr : String) : Node
  | each (container : String) (vars : List String) (children : List Node) : Node

/-- Concatenation of a list of rendered pieces, in order. -/
def strJoin : List String → String
  | [] => ""
  | s :: rest => s ++ strJoin rest

/-- The array branch of `EachNode::render`: for each element of `items` in
order, overwrite `m_vars[0]` in the local `prototype` map with the
element, replace the reused child context's wrapped value by the updated
prototype (`newContext->setJson`), render the children against it via
`renderBody`, and append the produced text. `m_vars` is nonempty for any
node built by `processFragment`; the default `""` models the
out-of-bounds access `m_vars[0]` never reached from parsed templates. -/
def eachArrayLoop (renderBody : Json → Except String (String × Json)) (var0 : String) :
    List Json → List (String × Json) → Json → Except String (String × Json)
  | [], _proto, childCtx => .ok ("", childCtx)
  | item :: rest, proto, _childCtx =>
    let proto1 := objInsert var0 item proto
    match renderBody (Json.obj proto1) with
    | .error e => .error e
    | .ok (out, childCtx1) =>
      match eachArrayLoop renderBody var0 rest proto1 childCtx1 with
      | .error e => .error e
      | .ok (outRest, childCtx2) => .ok (out ++ outRest, childCtx2)

/-- The per-entry prototype update of the object branch of
`EachNode::render`: overwrite `m_vars[0]` with the entry's key as a
string, and, only when a second variable name was declared
(`m_vars.size() > 1`), overwrite `m_vars[1]` with the entry's value. -/
def eachObjectBind (vars : List String) (entry : String × Json)
    (proto : List (String × Json)) : List (String × Json) :=
  let proto1 := objInsert (vars.headD "") (Json.str entry.1) proto
  if h : 1 < vars.length then objInsert vars[1] entry.2 proto1 else proto1

/-- The object branch of `EachNode::render`: for each key/value entry of the
object's stored entry list in order, update the local `prototype` map via
`eachObjectBind`, replace the reused child context's wrapped value by it,
render the children against it, and append the produced text. -/
def eachObjectLoop (renderBody : Json → Except String (String × Json)) (vars : List String) :
    List (String × Json) → List (String × Json) → Json → Except String (String × Json)
  | [], _proto, childCtx => .ok ("", childCtx)
  | entry :: rest, proto, _childCtx =>
    let proto1 := eachObjectBind vars entry proto
    match renderBody (Json.obj proto1) with
    | .error e => .error e
    | .ok (out, childCtx1) =>
      match eachObjectLoop renderBody vars rest proto1 childCtx1 with
      | .error e => .error e
      | .ok (outRest, childCtx2) => .ok (out ++ outRest, childCtx2)

mutual

/-- Rendering of one node against a context. The `each` case is
`EachNode::render`: evaluate `m_container` against the context; a result
that is neither an array nor an object raises
`Exception(container.dump() + " is not iterable")`; otherwise copy the
enclosing context's wrapped object into a local `prototype`, build one
reusable child context, and run the array or object loop. The enclosing
context is only read, never written, so it is returned unchanged. Leaf
cases are modelled from the spec: a text node writes its literal content
verbatim; a variable node writes the evaluated expression's printed
form. -/
def renderNode : Node → Json → Except String (String × Json)
  | .text content, ctx => .ok (content, ctx)
  | .var expr, ctx => .ok (printValue (ExpressionParser.parse ctx expr), ctx)
  | .each container vars children, ctx =>
    match ExpressionParser.parse ctx container with
    | .arr items =>
      match eachArrayLoop (fun c => renderChildren children c) (vars.headD "")
          items ctx.object_items (Json.obj ctx.object_items) with
      | .error e => .error e
      | .ok (out, _) => .ok (out, ctx)
    | .obj entries =>
      match eachObjectLoop (fun c => renderChildren children c) vars
          entries ctx.object_items (Json.obj ctx.object_items) with
      | .error e => .error e
      | .ok (out, _) => .ok (out, ctx)
    | c => .error (Json.dump c ++ " is not iterable")

/-- Modelled from the spec: `Node::renderChildren` (in the `Node` base class,
absent from the sources) renders all child nodes in document order
against the given context, concatenating their output; the first failure
aborts. -/
def renderChildren : List Node → Json → Except String (String × Json)
  | [], ctx => .ok ("", ctx)
  | n :: rest, ctx =>
    match renderNode n ctx with
    | .error e => .error e
    | .ok (out, ctx1) =>
      match renderChildren rest ctx1 with
      | .error e => .error e
      | .ok (outRest, ctx2) => .ok (out ++ outRest, ctx2)

end

/-- Character class `\w` of the ECMAScript regex dialect used by
`std::regex`: ASCII alphanumerics and underscore. -/
def isWordChar (c : Char) : Bool :=
  c.isAlphanum || c = '_'

/-- The bracket expression `[a-zA-Z0-9 _,]` of the loop-header regex. -/
def isClassChar (c : Char) : Bool :=
  c.isAlphanum || c = '_' || c = ',' || c = ' '

/-- Character class `\s`: whitespace. -/
def isReSpace (c : Char) : Bool :=
  c = ' ' || c = '\t' || c = '\n' || c = '\x0b' || c = '\x0c' || c = '\r'

/-- Characters matched by `.` in ECMAScript regexes: anything but a line
terminator. -/
def isDotChar (c : Char) : Bool :=
  !(c = '\n' || c = '\r' || c = '\u2028' || c = '\u2029')

/-- Backtracking search for the split of `\s+(.+)$` in `u`: the quantifier
`\s+` greedily takes `k ≥ 1` leading whitespace characters, longest
first, such that the remaining capture is nonempty and free of line
terminators; the capture is returned. -/
def searchExpr (u : List Char) : Nat → Option (List Char)
  | 0 => none
  | k + 1 =>
    let e := u.drop (k + 1)
    if !e.isEmpty && e.all isDotChar then some e else searchExpr u k

/-- Matcher for the trailing pattern `\s+(.+)$`. -/
def matchExprPart (u : List Char) : Option (List Char) :=
  searchExpr u (u.takeWhile isReSpace).length

/-- Matcher for ` \s*in\s+(.+)$`, the part of the loop-header regex after
the variable-name group: a literal space, optional whitespace, the
literal `in`, mandatory whitespace, and the captured container
expression (`\s*` may take its maximal run: the following literal `in`
starts with a non-whitespace character). -/
def matchTail : List Char → Option (List Char)
  | ' ' :: u =>
    match u.dropWhile isReSpace with
    | 'i' :: 'n' :: u2 => matchExprPart u2
    | _ => none
  | _ => none

/-- Backtracking search for the greedy group `(\w[a-zA-Z0-9 _,]*)` at the
start of `u0`: candidate lengths are tried from longest to shortest
until the rest of the pattern (`matchTail`) matches what follows;
returns the group and the container capture. -/
def searchVars (u0 : List Char) : Nat → Option (List Char × List Char)
  | 0 => none
  | len + 1 =>
    match matchTail (u0.drop (len + 1)) with
    | some e => some (u0.take (len + 1), e)
    | none => searchVars u0 len

/-- Matcher for `(\w[a-zA-Z0-9 _,]*) \s*in\s+(.+)$` at the start of the
input: the group must begin with a word character and extends over at
most the maximal run of class characters. -/
def matchVarsFrom (u0 : List Char) : Option (List Char × List Char) :=
  match u0 with
  | [] => none
  | c :: rest =>
    if isWordChar c then searchVars u0 (1 + (rest.takeWhile isClassChar).length)
    else none

/-- Matcher for the whole loop-header regex
`^for\s+(\w[a-zA-Z0-9 _,]*) \s*in\s+(.+)$` as `std::regex_match`
applies it (full match, ECMAScript greedy backtracking): the literal
`for`, mandatory whitespace (its maximal run: the group must begin with
a non-whitespace word character), then the two captured groups. -/
def matchForHeader (s : String) : Option (String × String) :=
  match s.data with
  | c1 :: c2 :: c3 :: rest =>
    if c1 = 'f' && c2 = 'o' && c3 = 'r' then
      if (rest.takeWhile isReSpace).isEmpty then none
      else
        match matchVarsFrom (rest.drop (rest.takeWhile isReSpace).length) with
        | some (vs, e) => some (String.mk vs, String.mk e)
        | none => none
    else none
  | _ => none

/-- Token split of the variable-name segment on the separator regex
`\s*,\s*`, as `std::sregex_token_iterator` with submatch `-1` performs
it: tokens are the unmatched stretches between leftmost separator
matches; a separator consumes the whitespace run immediately before a
comma, the comma, and the whitespace run after it; empty tokens between
adjacent separators are produced, but an empty trailing suffix is not.
`tok` holds the committed characters of the current token and `pend` a
pending whitespace run (both reversed); `skip` is set while a
separator's trailing whitespace is being consumed. -/
def splitVarsCore : (skip : Bool) → (tok pend : List Char) → List Char → List String
  | _, tok, pend, [] =>
    if tok.isEmpty && pend.isEmpty then [] else [String.mk (pend ++ tok).reverse]
  | skip, tok, pend, c :: rest =>
    if isReSpace c then
      if skip then splitVarsCore true tok pend rest
      else splitVarsCore false tok (c :: pend) rest
    else if c = ',' then
      String.mk tok.reverse :: splitVarsCore true [] [] rest
    else
      splitVarsCore false (c :: (pend ++ tok)) [] rest

/-- The variable-name tokens of a header's variable-name segment. -/
def splitVars (vars : String) : List String :=
  splitVarsCore false [] [] vars.data

/-- The fields of an `EachNode` that `processFragment` sets: the
variable-name list `m_vars` and the raw container-expression text
`m_container`. -/
structure EachFields where
  m_vars : List String
  m_container : String
deriving DecidableEq

/-- `EachNode::processFragment`, applied to the fragment's clean text
(trimmed, delimiter-stripped): match the loop-header regex, a failure
raising `TemplateSyntaxError(fragment->clean())`; split the captured
variable-name segment into comma-separated tokens; a token equal to the
empty string raises `TemplateSyntaxError(vars)`, where `vars` is the
captured variable-name segment; otherwise the tokens become `m_vars`
and the second capture becomes `m_container`. -/
def EachNode.processFragment (cleaned : String) : Except String EachFields :=
  match matchForHeader cleaned with
  | none => .error cleaned
  | some (vars, container) =>
    let possibleVars := splitVars vars
    if possibleVars.contains "" then .error vars
    else .ok ⟨possibleVars, container⟩

/-- `EachNode::exitScope`: a closing tag other than `"endfor"` raises
`TemplateSyntaxError(endTag)`. -/
def EachNode.exitScope (endTag : String) : Except String Unit :=
  if endTag ≠ "endfor" then .error endTag else .ok ()

/-! ### Order-theoretic facts about the key comparison -/

lemma char_eq_of_toNat_eq {a b : Char} (h : a.toNat = b.toNat) : a = b := by
  have hv : a.val = b.val := UInt32.ext h
  cases a
  cases b
  simp_all

lemma charListLtB_irrefl : ∀ l, charListLtB l l = false
  | [] => rfl
  | a :: as => by simp [charListLtB, charListLtB_irrefl as]

lemma charListLtB_trans : ∀ (a b c : List Char), charListLtB a b = true →
    charListLtB b c = true → charListLtB a c = true
  | _, _, [], _, h2 => by simp [charListLtB] at h2
  | _, [], _ :: _, h1, _ => by simp [charListLtB] at h1
  | [], _ :: _, _ :: _, _, _ => rfl
  | x :: xs, y :: ys, z :: zs, h1, h2 => by
    simp only [charListLtB] at h1 h2 ⊢
    by_cases hxy : x = y
    · subst hxy
      by_cases hyz : x = z
      · subst hyz
        simp only [if_pos rfl] at h1 h2 ⊢
        exact charListLtB_trans xs ys zs h1 h2
      · simp only [if_pos rfl, if_neg hyz] at h1 h2 ⊢
        exact h2
    · by_cases hyz : y = z
      · subst hyz
        simp only [if_neg hxy] at h1 ⊢
        exact h1
      · simp only [if_neg hxy, if_neg hyz] at h1 h2
        have hxz : x.toNat < z.toNat := lt_trans (of_decide_eq_true h1) (of_decide_eq_true h2)
        by_cases hxz2 : x = z
        · subst hxz2
          omega
        · simp only [if_neg hxz2]
          exact decide_eq_true hxz

lemma charListLtB_eq_of_not : ∀ (a b : List Char), charListLtB a b = false →
    charListLtB b a = false → a = b
  | [], [], _, _ => rfl
  | [], _ :: _, h1, _ => by simp [charListLtB] at h1
  | _ :: _, [], _, h2 => by simp [charListLtB] at h2
  | a :: as, b :: bs, h1, h2 => by
    by_cases hab : a = b
    · subst hab
      simp only [charListLtB, if_pos rfl] at h1 h2
      rw [charListLtB_eq_of_not as bs h1 h2]
    · exfalso
      simp only [charListLtB, if_neg hab, if_neg (Ne.symm hab)] at h1 h2
      have p1 : ¬ a.toNat < b.toNat := of_decide_eq_false h1
      have p2 : ¬ b.toNat < a.toNat := of_decide_eq_false h2
      exact hab (char_eq_of_toNat_eq (by omega))

lemma charListLtB_asymm {a b : List Char} (h : charListLtB a b = true) :
    charListLtB b a = false := by
  cases hba : charListLtB b a
  · rfl
  · have h2 := charListLtB_trans a b a h hba
    rw [charListLtB_irrefl] at h2
    exact Bool.noConfusion h2

lemma strLtB_irrefl (s : String) : strLtB s s = false :=
  charListLtB_irrefl s.data

lemma strLtB_trans {a b c : String} (h1 : strLtB a b = true) (h2 : strLtB b c = true) :
    strLtB a c = true :=
  charListLtB_trans a.data b.data c.data h1 h2

lemma strLtB_eq_of_not {a b : String} (h1 : strLtB a b = false)
    (h2 : strLtB b a = false) : a = b := by
  cases a
  cases b
  exact congrArg String.mk (charListLtB_eq_of_not _ _ h1 h2)

lemma strLtB_asymm {a b : String} (h : strLtB a b = true) : strLtB b a = false :=
  charListLtB_asymm h

lemma strLtB_of_not {a b : String} (hne : a ≠ b) (h : strLtB a b = false) :
    strLtB b a = true := by
  cases hba : strLtB b a
  · exact absurd (strLtB_eq_of_not h hba) hne
  · rfl

/-! ### The object entry list under insert-or-assign -/

/-- Strict ascending order of two object entries by key, the invariant of
`std::map`'s internal ordering. -/
def entryKeyLt (a b : String × Json) : Prop :=
  strLtB a.1 b.1 = true

lemma mem_objInsert {k : String} {v : Json} :
    ∀ {m : List (String × Json)} {p : String × Json},
      p ∈ objInsert k v m → p = (k, v) ∨ p ∈ m
  | [], p, h => by
    simp only [objInsert, List.mem_singleton] at h
    exact Or.inl h
  | (k1, v1) :: rest, p, h => by
    simp only [objInsert] at h
    split_ifs at h
    · exact (List.mem_cons.mp h).elim Or.inl Or.inr
    · exact (List.mem_cons.mp h).elim Or.inl fun hm => Or.inr (List.mem_cons_of_mem _ hm)
    · rcases List.mem_cons.mp h with h | h
      · exact Or.inr (h ▸ List.mem_cons_self _ _)
      · exact (mem_objInsert h).elim Or.inl fun hm => Or.inr (List.mem_cons_of_mem _ hm)

lemma objInsert_objInsert_same (k : String) (v w : Json) :
    ∀ m, objInsert k v (objInsert k w m) = objInsert k v m
  | [] => by simp [objInsert, strLtB_irrefl]
  | (k1, v1) :: rest => by
    by_cases hlt : strLtB k k1 = true
    · simp [objInsert, hlt, strLtB_irrefl]
    · by_cases heq : k = k1
      · subst heq
        simp [objInsert, strLtB_irrefl]
      · simp [objInsert, hlt, heq, objInsert_objInsert_same k v w rest]

lemma strLtB_cases (a b : String) :
    (strLtB a b = true ∧ strLtB b a = false ∧ a ≠ b)
    ∨ (a = b ∧ strLtB a b = false ∧ strLtB b a = false)
    ∨ (strLtB b a = true ∧ strLtB a b = false ∧ a ≠ b) := by
  cases h : strLtB a b
  · cases h2 : strLtB b a
    · exact Or.inr (Or.inl ⟨strLtB_eq_of_not h h2, rfl, rfl⟩)
    · refine Or.inr (Or.inr ⟨rfl, rfl, fun he => ?_⟩)
      subst he
      rw [strLtB_irrefl] at h2
      exact Bool.noConfusion h2
  · refine Or.inl ⟨rfl, strLtB_asymm h, fun he => ?_⟩
    subst he
    rw [strLtB_irrefl] at h
    exact Bool.noConfusion h

lemma objInsert_comm {k1 k2 : String} (v1 v2 : Json) (hne : k1 ≠ k2) :
    ∀ m, objInsert k1 v1 (objInsert k2 v2 m) = objInsert k2 v2 (objInsert k1 v1 m)
  | [] => by
    rcases strLtB_cases k1 k2 with ⟨h12, h21, _⟩ | ⟨he, _, _⟩ | ⟨h21, h12, _⟩
    · simp [objInsert, h12, h21, hne, Ne.symm hne]
    · exact absurd he hne
    · simp [objInsert, h12, h21, hne, Ne.symm hne]
  | (k, v) :: rest => by
    rcases strLtB_cases k1 k with ⟨hA, hA2, hAe⟩ | ⟨hAe, hA0, hA2⟩ | ⟨hA2, hA0, hAe⟩
    · rcases strLtB_cases k2 k with ⟨hB, hB2, hBe⟩ | ⟨hBe, hB0, hB2⟩ | ⟨hB2, hB0, hBe⟩
      · rcases strLtB_cases k1 k2 with ⟨hC, hC2, _⟩ | ⟨he, _, _⟩ | ⟨hC2, hC, _⟩
        · simp [objInsert, hA, hB, hC, hC2, hne, Ne.symm hne]
        · exact absurd he hne
        · simp [objInsert, hA, hB, hC, hC2, hne, Ne.symm hne]
      · subst hBe
        have h12 : strLtB k2 k1 = false := hA2
        simp [objInsert, hA, hA2, h12, strLtB_irrefl, hne, Ne.symm hne]
      · have hC : strLtB k1 k2 = true := strLtB_trans hA hB2
        simp [objInsert, hA, hB0, hBe, hC, strLtB_asymm hC, hne, Ne.symm hne]
    · subst hAe
      rcases strLtB_cases k2 k1 with ⟨hB, hB2, hBe⟩ | ⟨hBe, _, _⟩ | ⟨hB2, hB0, hBe⟩
      · simp [objInsert, hA0, hB, hB2, strLtB_irrefl, hne, Ne.symm hne]
      · exact absurd hBe.symm hne
      · simp [objInsert, hA0, hB0, hB2, hBe, strLtB_irrefl, hne, Ne.symm hne]
    · rcases strLtB_cases k2 k with ⟨hB, hB2, hBe⟩ | ⟨hBe, hB0, hB2⟩ | ⟨hB2, hB0, hBe⟩
      · have hC : strLtB k2 k1 = true := strLtB_trans hB hA2
        simp [objInsert, hA0, hAe, hB, hC, strLtB_asymm hC, hne, Ne.symm hne]
      · subst hBe
        simp [objInsert, hA0, hAe, hB0, strLtB_irrefl, hne, Ne.symm hne]
      · simp [objInsert, hA0, hAe, hB0, hBe, objInsert_comm v1 v2 hne rest]

lemma pairwise_objInsert {k : String} {v : Json} :
    ∀ {m : List (String × Json)}, m.Pairwise entryKeyLt →
      (objInsert k v m).Pairwise entryKeyLt
  | [], _ => by simp [objInsert, entryKeyLt]
  | (k1, v1) :: rest, hm => by
    rcases List.pairwise_cons.mp hm with ⟨hhead, hrest⟩
    rcases strLtB_cases k k1 with ⟨hlt, _, _⟩ | ⟨heq, _, _⟩ | ⟨hgt, hf1, hne⟩
    · rw [show objInsert k v ((k1, v1) :: rest) = (k, v) :: (k1, v1) :: rest by
        simp [objInsert, hlt]]
      refine List.pairwise_cons.mpr ⟨?_, hm⟩
      intro p hp
      rcases List.mem_cons.mp hp with h | h
      · subst h
        exact hlt
      · exact strLtB_trans hlt (hhead p h)
    · subst heq
      rw [show objInsert k v ((k, v1) :: rest) = (k, v) :: rest by
        simp [objInsert, strLtB_irrefl]]
      exact List.pairwise_cons.mpr ⟨hhead, hrest⟩
    · rw [show objInsert k v ((k1, v1) :: rest) = (k1, v1) :: objInsert k v rest by
        simp [objInsert, hf1, hne]]
      refine List.pairwise_cons.mpr ⟨?_, pairwise_objInsert hrest⟩
      intro p hp
      rcases mem_objInsert hp with h | h
      · subst h
        exact hgt
      · exact hhead p h

lemma buildObj_go_pairwise :
    ∀ (ps : List (String × Json)) (m : List (String × Json)),
      m.Pairwise entryKeyLt →
      (ps.foldl (fun m kv => objInsert kv.1 kv.2 m) m).Pairwise entryKeyLt
  | [], _, hm => hm
  | kv :: ps, m, hm => buildObj_go_pairwise ps _ (pairwise_objInsert hm)

lemma buildObj_pairwise (ps : List (String × Json)) :
    (buildObj ps).Pairwise entryKeyLt :=
  buildObj_go_pairwise ps [] List.Pairwise.nil

lemma buildObj_go_perm {ps ps2 : List (String × Json)} (hperm : ps.Perm ps2)
    (hnd : (ps.map Prod.fst).Nodup) :
    ∀ m, ps.foldl (fun m kv => objInsert kv.1 kv.2 m) m
      = ps2.foldl (fun m kv => objInsert kv.1 kv.2 m) m := by
  induction hperm with
  | nil => intro m; rfl
  | cons x hperm ih =>
    intro m
    simp only [List.foldl_cons]
    exact ih (by simpa using (List.nodup_cons.mp (by simpa using hnd)).2) _
  | swap x y l =>
    intro m
    simp only [List.foldl_cons]
    have hxy : y.1 ≠ x.1 := by
      simp only [List.map_cons, List.nodup_cons, List.mem_cons, List.mem_map] at hnd
      exact fun h => hnd.1 (Or.inl h)
    rw [objInsert_comm _ _ hxy]
  | trans h12 h23 ih12 ih23 =>
    intro m
    rw [ih12 hnd m, ih23 (((h12.map Prod.fst).nodup_iff).mp hnd) m]

lemma buildObj_perm {ps ps2 : List (String × Json)} (hperm : ps.Perm ps2)
    (hnd : (ps.map Prod.fst).Nodup) : buildObj ps = buildObj ps2 :=
  buildObj_go_perm hperm hnd []

/-! ### Rendering lemmas -/

lemma strJoin_cons (s : String) (l : List String) : strJoin (s :: l) = s ++ strJoin l :=
  rfl

lemma strJoin_all_empty : ∀ (l : List String), (∀ s ∈ l, s = "") → strJoin l = ""
  | [], _ => rfl
  | s :: l, h => by
    rw [strJoin_cons, h s (List.mem_cons_self _ _),
      strJoin_all_empty l fun t ht => h t (List.mem_cons_of_mem _ ht), String.empty_append]

lemma renderNode_text (s : String) (ctx : Json) : renderNode (.text s) ctx = .ok (s, ctx) :=
  rfl

lemma renderNode_var (e : String) (ctx : Json) :
    renderNode (.var e) ctx = .ok (printValue (ExpressionParser.parse ctx e), ctx) :=
  rfl

lemma renderChildren_nil (ctx : Json) : renderChildren [] ctx = .ok ("", ctx) :=
  rfl

lemma renderNode_each_arr {ctx : Json} {container : String} {items : List Json}
    (vars : List String) (children : List Node)
    (h : ExpressionParser.parse ctx container = .arr items) :
    renderNode (.each container vars children) ctx =
      match eachArrayLoop (fun c => renderChildren children c) (vars.headD "")
          items ctx.object_items (Json.obj ctx.object_items) with
      | .error e => .error e
      | .ok (out, _) => .ok (out, ctx) := by
  simp only [renderNode, h]

lemma renderNode_each_obj {ctx : Json} {container : String} {entries : List (String × Json)}
    (vars : List String) (children : List Node)
    (h : ExpressionParser.parse ctx container = .obj entries) :
    renderNode (.each container vars children) ctx =
      match eachObjectLoop (fun c => renderChildren children c) vars
          entries ctx.object_items (Json.obj ctx.object_items) with
      | .error e => .error e
      | .ok (out, _) => .ok (out, ctx) := by
  simp only [renderNode, h]

lemma renderNode_each_not_iterable {ctx : Json} {container : String}
    (vars : List String) (children : List Node)
    (hA : (ExpressionParser.parse ctx container).is_array = false)
    (hO : (ExpressionParser.parse ctx container).is_object = false) :
    renderNode (.each container vars children) ctx =
      .error (Json.dump (ExpressionParser.parse ctx container) ++ " is not iterable") := by
  cases h : ExpressionParser.parse ctx container with
  | arr items => rw [h] at hA; exact Bool.noConfusion hA
  | obj entries => rw [h] at hO; exact Bool.noConfusion hO
  | nul => simp only [renderNode, h]
  | number v => simp only [renderNode, h]
  | boolean b => simp only [renderNode, h]
  | str s => simp only [renderNode, h]

lemma eachArrayLoop_formula (body : Json → Except String (String × Json)) (v0 : String)
    (f : Json → String) (fc : Json → Json) :
    ∀ (items : List Json) (proto : List (String × Json)) (cctx : Json),
      (∀ item ∈ items, body (Json.obj (objInsert v0 item proto)) = .ok (f item, fc item)) →
      ∃ c2, eachArrayLoop body v0 items proto cctx = .ok (strJoin (items.map f), c2)
  | [], _proto, cctx, _ => ⟨cctx, rfl⟩
  | item :: rest, proto, cctx, hbody => by
    have h1 := hbody item (List.mem_cons_self _ _)
    have hrest : ∀ it ∈ rest,
        body (Json.obj (objInsert v0 it (objInsert v0 item proto))) = .ok (f it, fc it) := by
      intro it hit
      rw [objInsert_objInsert_same]
      exact hbody it (List.mem_cons_of_mem _ hit)
    obtain ⟨c2, hc2⟩ :=
      eachArrayLoop_formula body v0 f fc rest (objInsert v0 item proto) (fc item) hrest
    refine ⟨c2, ?_⟩
    simp only [eachArrayLoop, h1, hc2, List.map_cons, strJoin_cons]

lemma eachObjectBind_eachObjectBind (vars : List String) (e e1 : String × Json)
    (m : List (String × Json)) :
    eachObjectBind vars e (eachObjectBind vars e1 m) = eachObjectBind vars e m := by
  by_cases hl : 1 < vars.length
  · by_cases hk : vars.headD "" = vars[1]
    · simp only [eachObjectBind, dif_pos hl, ← hk, objInsert_objInsert_same]
    · simp only [eachObjectBind, dif_pos hl]
      rw [objInsert_comm _ _ hk, objInsert_objInsert_same, objInsert_objInsert_same]
  · simp only [eachObjectBind, dif_neg hl, objInsert_objInsert_same]

lemma eachObjectLoop_formula (body : Json → Except String (String × Json)) (vars : List String)
    (f : String × Json → String) (fc : String × Json → Json) :
    ∀ (entries : List (String × Json)) (proto : List (String × Json)) (cctx : Json),
      (∀ e ∈ entries, body (Json.obj (eachObjectBind vars e proto)) = .ok (f e, fc e)) →
      ∃ c2, eachObjectLoop body vars entries proto cctx = .ok (strJoin (entries.map f), c2)
  | [], _proto, cctx, _ => ⟨cctx, rfl⟩
  | e :: rest, proto, cctx, hbody => by
    have h1 := hbody e (List.mem_cons_self _ _)
    have hrest : ∀ e1 ∈ rest,
        body (Json.obj (eachObjectBind vars e1 (eachObjectBind vars e proto)))
          = .ok (f e1, fc e1) := by
      intro e1 he1
      rw [eachObjectBind_eachObjectBind]
      exact hbody e1 (List.mem_cons_of_mem _ he1)
    obtain ⟨c2, hc2⟩ :=
      eachObjectLoop_formula body vars f fc rest (eachObjectBind vars e proto) (fc e) hrest
    refine ⟨c2, ?_⟩
    simp only [eachObjectLoop, h1, hc2, List.map_cons, strJoin_cons]

lemma renderChildren_append : ∀ (ns ms : List Node) (ctx : Json),
    renderChildren (ns ++ ms) ctx =
      match renderChildren ns ctx with
      | .error e => .error e
      | .ok (o1, c1) =>
        match renderChildren ms c1 with
        | .error e => .error e
        | .ok (o2, c2) => .ok (o1 ++ o2, c2)
  | [], ms, ctx => by
    simp only [List.nil_append, renderChildren_nil]
    cases h : renderChildren ms ctx with
    | error e => rfl
    | ok p => rcases p with ⟨o, c⟩; simp [String.empty_append]
  | n :: ns, ms, ctx => by
    show ((match renderNode n ctx with
        | Except.error e => Except.error e
        | Except.ok (out, ctx1) =>
          match renderChildren (ns ++ ms) ctx1 with
          | Except.error e => Except.error e
          | Except.ok (outRest, ctx2) => Except.ok (out ++ outRest, ctx2))
        : Except String (String × Json))
      = match ((match renderNode n ctx with
          | Except.error e => Except.error e
          | Except.ok (out, ctx1) =>
            match renderChildren ns ctx1 with
            | Except.error e => Except.error e
            | Except.ok (outRest, ctx2) => Except.ok (out ++ outRest, ctx2))
          : Except String (String × Json)) with
        | Except.error e => Except.error e
        | Except.ok (o1, c1) =>
          match renderChildren ms c1 with
          | Except.error e => Except.error e
          | Except.ok (o2, c2) => Except.ok (o1 ++ o2, c2)
    cases h : renderNode n ctx with
    | error e => rfl
    | ok p =>
      rcases p with ⟨o1, c1⟩
      dsimp only
      rw [renderChildren_append ns ms c1]
      cases h2 : renderChildren ns c1 with
      | error e => rfl
      | ok q =>
        rcases q with ⟨o2, c2⟩
        dsimp only
        cases h3 : renderChildren ms c2 with
        | error e => rfl
        | ok r =>
          rcases r with ⟨o3, c3⟩
          dsimp only
          rw [String.append_assoc]

/-! ### Facts about the loop-header parsing -/

lemma splitVarsCore_ne_nil : ∀ (tok pend cs : List Char),
    tok ≠ [] ∨ pend ≠ [] ∨ cs ≠ [] → splitVarsCore false tok pend cs ≠ []
  | tok, pend, [], h => by
    have hcond : ¬(tok.isEmpty && pend.isEmpty) = true := by
      rcases h with h | h | h
      · simp [List.isEmpty_iff, h]
      · simp [List.isEmpty_iff, h]
      · exact absurd rfl h
    simp only [splitVarsCore]
    rw [if_neg hcond]
    simp
  | tok, pend, c :: rest, _ => by
    by_cases hsp : isReSpace c = true
    · simp only [splitVarsCore, hsp, if_true, Bool.false_eq_true, if_false]
      exact splitVarsCore_ne_nil tok (c :: pend) rest (Or.inr (Or.inl (by simp)))
    · by_cases hc : c = ','
      · subst hc
        have he : splitVarsCore false tok pend (',' :: rest)
            = String.mk tok.reverse :: splitVarsCore true [] [] rest := rfl
        rw [he]
        simp
      · simp only [splitVarsCore, hsp, hc, if_false]
        exact splitVarsCore_ne_nil (c :: (pend ++ tok)) [] rest (Or.inl (by simp))

lemma splitVars_ne_nil {vars : String} (h : vars.data ≠ []) : splitVars vars ≠ [] :=
  splitVarsCore_ne_nil [] [] vars.data (Or.inr (Or.inr h))

lemma searchVars_some : ∀ (u0 : List Char) (n : Nat) {vs e : List Char},
    searchVars u0 n = some (vs, e) → ∃ k, vs = u0.take (k + 1)
  | _, 0, _, _, h => by simp [searchVars] at h
  | u0, n + 1, vs, e, h => by
    simp only [searchVars] at h
    cases hm : matchTail (u0.drop (n + 1)) with
    | some e2 =>
      rw [hm] at h
      injection h with h1
      rw [Prod.mk.injEq] at h1
      exact ⟨n, h1.1.symm⟩
    | none =>
      rw [hm] at h
      exact searchVars_some u0 n h

lemma matchVarsFrom_some : ∀ {u0 vs e : List Char},
    matchVarsFrom u0 = some (vs, e) → vs ≠ []
  | [], _, _, h => by simp [matchVarsFrom] at h
  | c :: rest, vs, e, h => by
    simp only [matchVarsFrom] at h
    by_cases hw : isWordChar c = true
    · rw [if_pos hw] at h
      obtain ⟨k, hk⟩ := searchVars_some (c :: rest) _ h
      subst hk
      simp [List.take_cons]
    · rw [if_neg hw] at h
      exact Option.noConfusion h

lemma matchForHeader_shape {s vars container : String}
    (h : matchForHeader s = some (vars, container)) :
    ∃ u0 e, matchVarsFrom u0 = some (vars.data, e) := by
  unfold matchForHeader at h
  split at h
  · split at h
    · split at h
      · exact Option.noConfusion h
      · split at h
        · next vs e heq =>
            injection h with h1
            rw [Prod.mk.injEq] at h1
            obtain ⟨hv, _⟩ := h1
            subst hv
            exact ⟨_, e, heq⟩
        · exact Option.noConfusion h
    · exact Option.noConfusion h
  · exact Option.noConfusion h

lemma matchForHeader_vars_ne_empty {s vars container : String}
    (h : matchForHeader s = some (vars, container)) : vars.data ≠ [] := by
  obtain ⟨u0, e, hm⟩ := matchForHeader_shape h
  exact matchVarsFrom_some hm

lemma processFragment_ok {s : String} {fields : EachFields}
    (h : EachNode.processFragment s = .ok fields) :
    fields.m_vars ≠ [] ∧ ¬ "" ∈ fields.m_vars := by
  unfold EachNode.processFragment at h
  cases hm : matchForHeader s with
  | none => rw [hm] at h; exact Except.noConfusion h
  | some p =>
    rcases p with ⟨vars, container⟩
    rw [hm] at h
    dsimp only at h
    by_cases hc : (splitVars vars).contains "" = true
    · rw [if_pos hc] at h
      exact Except.noConfusion h
    · rw [if_neg hc] at h
      injection h with h1
      subst h1
      refine ⟨splitVars_ne_nil (matchForHeader_vars_ne_empty hm), fun hmem => hc ?_⟩
      exact List.elem_iff.mpr hmem

lemma processFragment_error {s m : String}
    (h : EachNode.processFragment s = .error m) :
    (matchForHeader s = none ∧ m = s) ∨
      ∃ container, matchForHeader s = some (m, container) ∧ "" ∈ splitVars m := by
  unfold EachNode.processFragment at h
  cases hm : matchForHeader s with
  | none =>
    rw [hm] at h
    injection h with h1
    exact Or.inl ⟨rfl, h1.symm⟩
  | some p =>
    rcases p with ⟨vars, container⟩
    rw [hm] at h
    dsimp only at h
    by_cases hc : (splitVars vars).contains "" = true
    · rw [if_pos hc] at h
      injection h with h1
      subst h1
      exact Or.inr ⟨container, rfl, List.elem_iff.mp hc⟩
    · rw [if_neg hc] at h
      exact Except.noConfusion h

lemma getD_nul_of_le : ∀ (xs : List Json) (i : Nat), xs.length ≤ i → xs.getD i .nul = .nul
  | [], i, _ => by cases i <;> rfl
  | _ :: _, 0, h => by simp at h
  | _ :: xs, i + 1, h => by simpa using getD_nul_of_le xs i (by simpa using h)

/-- The array branch of `EachNode::render` as one compositional formula: when
the container expression evaluates to an array and each child-sequence
render against the bound context succeeds, the node's output is the
concatenation over the elements in order, and the enclosing context is
returned unchanged. -/
lemma renderNode_each_arr_formula {ctx : Json} {container : String} {items : List Json}
    (vars : List String) (children : List Node) (f : Json → String) (fc : Json → Json)
    (hc : ExpressionParser.parse ctx container = .arr items)
    (hbody : ∀ item ∈ items,
      renderChildren children (Json.obj (objInsert (vars.headD "") item ctx.object_items))
        = .ok (f item, fc item)) :
    renderNode (.each container vars children) ctx = .ok (strJoin (items.map f), ctx) := by
  rw [renderNode_each_arr vars children hc]
  obtain ⟨c2, hl⟩ := eachArrayLoop_formula (fun c => renderChildren children c)
    (vars.headD "") f fc items ctx.object_items (Json.obj ctx.object_items) hbody
  rw [hl]

/-- The object branch of `EachNode::render` as one compositional formula:
entries are visited in the stored entry-list order, each binding the
first variable to the key (as a string) and, when declared, the second
to the value, via `eachObjectBind`. -/
lemma renderNode_each_obj_formula {ctx : Json} {container : String}
    {entries : List (String × Json)}
    (vars : List String) (children : List Node)
    (f : String × Json → String) (fc : String × Json → Json)
    (hc : ExpressionParser.parse ctx container = .obj entries)
    (hbody : ∀ e ∈ entries,
      renderChildren children (Json.obj (eachObjectBind vars e ctx.object_items))
        = .ok (f e, fc e)) :
    renderNode (.each container vars children) ctx = .ok (strJoin (entries.map f), ctx) := by
  rw [renderNode_each_obj vars children hc]
  obtain ⟨c2, hl⟩ := eachObjectLoop_formula (fun c => renderChildren children c)
    vars f fc entries ctx.object_items (Json.obj ctx.object_items) hbody
  rw [hl]

/-- With no children the loops always succeed with empty output, so a
childless loop node renders to `""` on any iterable container. -/
lemma renderNode_each_no_children {ctx : Json} {container : String} (vars : List String)
    (hit : (ExpressionParser.parse ctx container).is_array = true ∨
      (ExpressionParser.parse ctx container).is_object = true) :
    renderNode (.each container vars []) ctx = .ok ("", ctx) := by
  cases hp : ExpressionParser.parse ctx container with
  | arr items =>
    have h := renderNode_each_arr_formula vars [] (fun _ => "")
      (fun item => Json.obj (objInsert (vars.headD "") item ctx.object_items)) hp
      (fun item _ => rfl)
    rwa [strJoin_all_empty (items.map fun _ => "")
      (by intro s hs; rcases List.mem_map.mp hs with ⟨_, _, hse⟩; exact hse.symm)] at h
  | obj entries =>
    have h := renderNode_each_obj_formula vars [] (fun _ => "")
      (fun e => Json.obj (eachObjectBind vars e ctx.object_items)) hp
      (fun e _ => rfl)
    rwa [strJoin_all_empty (entries.map fun _ => "")
      (by intro s hs; rcases List.mem_map.mp hs with ⟨_, _, hse⟩; exact hse.symm)] at h
  | nul => rw [hp] at hit; simp [Json.is_array, Json.is_object] at hit
  | number v => rw [hp] at hit; simp [Json.is_array, Json.is_object] at hit
  | boolean b => rw [hp] at hit; simp [Json.is_array, Json.is_object] at hit
  | str s => rw [hp] at hit; simp [Json.is_array, Json.is_object] at hit

/-! ### The claims -/

/-- C1 (amended): `EachNode::render` raises the failure whose message is the
dumped container value followed by `" is not iterable"` exactly at its
own container-shape check: whenever the evaluated container value is
neither an array nor an object, render fails with that message; when the
node has no children, render fails if and only if the container is
non-iterable, with exactly that message. (A node with children can also
fail on an iterable container, through a failing child render — see the
counterexample.) -/
theorem C1_each_not_iterable (ctx : Json) (container : String) (vars : List String)
    (children : List Node) :
    ((ExpressionParser.parse ctx container).is_array = false ∧
      (ExpressionParser.parse ctx container).is_object = false →
      renderNode (.each container vars children) ctx
        = .error (Json.dump (ExpressionParser.parse ctx container) ++ " is not iterable"))
    ∧ (∀ msg, renderNode (.each container vars []) ctx = .error msg ↔
        ((ExpressionParser.parse ctx container).is_array = false ∧
          (ExpressionParser.parse ctx container).is_object = false ∧
          msg = Json.dump (ExpressionParser.parse ctx container) ++ " is not iterable")) := by
  refine ⟨fun h => renderNode_each_not_iterable vars children h.1 h.2, fun msg => ?_⟩
  by_cases hA : (ExpressionParser.parse ctx container).is_array = true
  · rw [renderNode_each_no_children vars (Or.inl hA)]
    constructor
    · intro h
      exact Except.noConfusion h
    · rintro ⟨hA2, _, _⟩
      rw [hA] at hA2
      exact Bool.noConfusion hA2
  · by_cases hO : (ExpressionParser.parse ctx container).is_object = true
    · rw [renderNode_each_no_children vars (Or.inr hO)]
      constructor
      · intro h
        exact Except.noConfusion h
      · rintro ⟨_, hO2, _⟩
        rw [hO] at hO2
        exact Bool.noConfusion hO2
    · have hA2 : (ExpressionParser.parse ctx container).is_array = false :=
        Bool.eq_false_iff.mpr hA
      have hO2 : (ExpressionParser.parse ctx container).is_object = false :=
        Bool.eq_false_iff.mpr hO
      rw [renderNode_each_not_iterable vars [] hA2 hO2]
      constructor
      · intro h
        injection h with h1
        exact ⟨hA2, hO2, h1.symm⟩
      · rintro ⟨_, _, rfl⟩
        rfl

/-- C1 witness: a container expression evaluating to the number 5 fails with
the message `"5 is not iterable"`. -/
theorem C1_witness :
    renderNode (.each "5" ["x"] []) (Json.obj []) = .error "5 is not iterable" := by
  have h := (C1_each_not_iterable (Json.obj []) "5" ["x"] []).1 ⟨rfl, rfl⟩
  rw [h]
  rfl

/-- C1 counterexample to the claim as stated: with a nested loop over a
non-iterable container among the children, the outer `render` raises a
render-time failure even though the outer container evaluates to an
array — so render failure is not equivalent to the outer container being
non-iterable. -/
theorem C1_counterexample :
    renderNode (.each "items" ["x"] [.each "5" ["y"] []])
        (Json.obj [("items", Json.arr [Json.number 1])])
      = .error "5 is not iterable"
    ∧ (ExpressionParser.parse (Json.obj [("items", Json.arr [Json.number 1])]) "items").is_array
      = true :=
  ⟨rfl, rfl⟩

/-- C2: for an array-valued container, `EachNode::render` iterates the
elements in their stored order, binding the single loop variable to each
element by overwriting it in the child context's wrapped object, renders
the children in document order against that child context, concatenates
the outputs (an empty array yields no iterations and empty output), and
returns the enclosing context unchanged. -/
theorem C2_array_iteration (ctx : Json) (container x : String) (children : List Node)
    (items : List Json) (f : Json → String) (fc : Json → Json)
    (hc : ExpressionParser.parse ctx container = .arr items)
    (hbody : ∀ item ∈ items,
      renderChildren children (Json.obj (objInsert x item ctx.object_items))
        = .ok (f item, fc item)) :
    renderNode (.each container [x] children) ctx = .ok (strJoin (items.map f), ctx) :=
  renderNode_each_arr_formula [x] children f fc hc (by simpa using hbody)

/-- C2 witness: `{% for x in items %}{{ x }},{% endfor %}` with
`items = [1,2,3]` renders `"1,2,3,"`, and with `items = []` renders
`""`. -/
theorem C2_witness :
    renderNode (.each "items" ["x"] [.var "x", .text ","])
        (Json.obj [("items", Json.arr [Json.number 1, Json.number 2, Json.number 3])])
      = .ok ("1,2,3,",
          Json.obj [("items", Json.arr [Json.number 1, Json.number 2, Json.number 3])])
    ∧ renderNode (.each "items" ["x"] [.var "x", .text ","]) (Json.obj [("items", Json.arr [])])
      = .ok ("", Json.obj [("items", Json.arr [])]) := by
  constructor
  · have h := C2_array_iteration
      (Json.obj [("items", Json.arr [Json.number 1, Json.number 2, Json.number 3])])
      "items" "x" [.var "x", .text ","]
      [Json.number 1, Json.number 2, Json.number 3]
      (fun item => printValue item ++ ",")
      (fun item => Json.obj (objInsert "x" item
        [("items", Json.arr [Json.number 1, Json.number 2, Json.number 3])]))
      rfl (by intro item hi; fin_cases hi <;> rfl)
    rw [h]
    rfl
  · have h := C2_array_iteration (Json.obj [("items", Json.arr [])]) "items" "x"
      [.var "x", .text ","] [] (fun item => printValue item ++ ",") (fun _ => Json.nul)
      rfl (by intro item hi; exact absurd hi (List.not_mem_nil item))
    rw [h]
    rfl

/-- C3 (amended): `processFragment` accepts a loop header if and only if it
matches the regex `for <vars> in <expr>` (variable segment beginning
with a word character, continuing over alphanumerics, underscores,
spaces and commas) and comma-splitting the variable segment yields no
empty identifier, where — as `std::sregex_token_iterator` does — an
empty trailing segment is dropped. One or more identifiers are accepted
(not at most two), and identifiers may contain spaces. `"for , x in y"`
raises a syntax error at parse time, but `"for x, in y"` is accepted,
binding the single variable `x`, and `"for a, b, c in y"` is accepted
with three variables. Every accepted header stores at least one
variable name and no empty variable name. -/
theorem C3_grammar :
    (∀ (s : String) (fields : EachFields), EachNode.processFragment s = .ok fields →
      fields.m_vars ≠ [] ∧ ¬ "" ∈ fields.m_vars)
    ∧ EachNode.processFragment "for , x in y" = .error "for , x in y"
    ∧ EachNode.processFragment "for x, in y" = .ok ⟨["x"], "y"⟩
    ∧ EachNode.processFragment "for a, b, c in y" = .ok ⟨["a", "b", "c"], "y"⟩ :=
  ⟨fun _ _ h => processFragment_ok h, rfl, rfl, rfl⟩

/-- C3 witness: an accepted header (`"for x,y in z"`) stores a nonempty list
of nonempty variable names. -/
theorem C3_witness :
    (["x", "y"] : List String) ≠ [] ∧ ¬ "" ∈ (["x", "y"] : List String) :=
  C3_grammar.1 "for x,y in z" ⟨["x", "y"], "z"⟩ rfl

/-- C3 counterexample to the claim as stated: `"for x, in y"` does not raise
a syntax error — the empty trailing segment after the comma is dropped
by the token split, so the header is accepted with the single variable
`x`; and `"for a, b, c in y"` is accepted with three variables, though
the claim allows at most two. -/
theorem C3_counterexample :
    EachNode.processFragment "for x, in y" = .ok ⟨["x"], "y"⟩
    ∧ EachNode.processFragment "for a, b, c in y" = .ok ⟨["a", "b", "c"], "y"⟩ :=
  ⟨rfl, rfl⟩

/-- C4: whenever `EachNode::render` completes successfully, the enclosing
context it returns is exactly the context it was given: loop-variable
bindings happen only in the reused child context, and nothing is
written back into the enclosing context. -/
theorem C4_enclosing_context_preserved (container : String) (vars : List String)
    (children : List Node) (ctx : Json) (out : String) (ctx2 : Json)
    (h : renderNode (.each container vars children) ctx = .ok (out, ctx2)) :
    ctx2 = ctx := by
  cases hp : ExpressionParser.parse ctx container with
  | arr items =>
    rw [renderNode_each_arr vars children hp] at h
    cases hl : eachArrayLoop (fun c => renderChildren children c) (vars.headD "") items
        ctx.object_items (Json.obj ctx.object_items) with
    | error e => rw [hl] at h; exact Except.noConfusion h
    | ok p =>
      rcases p with ⟨o, c⟩
      rw [hl] at h
      dsimp only at h
      injection h with h1
      rw [Prod.mk.injEq] at h1
      exact h1.2.symm
  | obj entries =>
    rw [renderNode_each_obj vars children hp] at h
    cases hl : eachObjectLoop (fun c => renderChildren children c) vars entries
        ctx.object_items (Json.obj ctx.object_items) with
    | error e => rw [hl] at h; exact Except.noConfusion h
    | ok p =>
      rcases p with ⟨o, c⟩
      rw [hl] at h
      dsimp only at h
      injection h with h1
      rw [Prod.mk.injEq] at h1
      exact h1.2.symm
  | nul =>
    rw [renderNode_each_not_iterable vars children (by rw [hp]; rfl) (by rw [hp]; rfl)] at h
    exact Except.noConfusion h
  | number v =>
    rw [renderNode_each_not_iterable vars children (by rw [hp]; rfl) (by rw [hp]; rfl)] at h
    exact Except.noConfusion h
  | boolean b =>
    rw [renderNode_each_not_iterable vars children (by rw [hp]; rfl) (by rw [hp]; rfl)] at h
    exact Except.noConfusion h
  | str s =>
    rw [renderNode_each_not_iterable vars children (by rw [hp]; rfl) (by rw [hp]; rfl)] at h
    exact Except.noConfusion h

/-- C4 witness: a loop over a one-element array returns the enclosing
context unchanged. -/
theorem C4_witness :
    (Json.obj [("items", Json.arr [Json.number 1])])
      = Json.obj [("items", Json.arr [Json.number 1])] :=
  C4_enclosing_context_preserved "items" ["x"] [] (Json.obj [("items", Json.arr [Json.number 1])])
    "" (Json.obj [("items", Json.arr [Json.number 1])]) rfl

/-- C5: `EachNode::exitScope` succeeds exactly on the closing tag
`"endfor"`; any other closing tag raises a syntax error carrying that
tag. -/
theorem C5_exitScope_endfor (endTag : String) :
    (EachNode.exitScope endTag = .ok () ↔ endTag = "endfor")
    ∧ (endTag ≠ "endfor" → EachNode.exitScope endTag = .error endTag) := by
  constructor
  · constructor
    · intro h
      by_contra hne
      unfold EachNode.exitScope at h
      rw [if_pos hne] at h
      exact Except.noConfusion h
    · intro h
      subst h
      rfl
  · intro hne
    unfold EachNode.exitScope
    rw [if_pos hne]

/-- C5 witness: `{% endif %}` closing a `for` scope fails with a mismatch
naming `"endif"`. -/
theorem C5_witness : EachNode.exitScope "endif" = .error "endif" :=
  (C5_exitScope_endfor "endif").2 (by decide)

/-- C6: for an object-valued container, `EachNode::render` iterates the
key/value entries in the object's stored order, overwriting the first
bound variable with the key as a string and — only when a second
variable name was declared — the second with the value
(`eachObjectBind`), rendering the children per entry and concatenating
the outputs, with the enclosing context returned unchanged. -/
theorem C6_object_iteration (ctx : Json) (container : String) (vars : List String)
    (children : List Node) (entries : List (String × Json))
    (f : String × Json → String) (fc : String × Json → Json)
    (hc : ExpressionParser.parse ctx container = .obj entries)
    (hbody : ∀ e ∈ entries,
      renderChildren children (Json.obj (eachObjectBind vars e ctx.object_items))
        = .ok (f e, fc e)) :
    renderNode (.each container vars children) ctx = .ok (strJoin (entries.map f), ctx) :=
  renderNode_each_obj_formula vars children f fc hc hbody

/-- C6 witness: `{% for k, v in obj %}{{ k }}={{ v }};{% endfor %}` with
`obj = {"a":1,"b":2}` renders `"a=1;b=2;"`. -/
theorem C6_witness :
    renderNode (.each "obj" ["k", "v"] [.var "k", .text "=", .var "v", .text ";"])
        (Json.obj [("obj", Json.obj [("a", Json.number 1), ("b", Json.number 2)])])
      = .ok ("a=1;b=2;",
          Json.obj [("obj", Json.obj [("a", Json.number 1), ("b", Json.number 2)])]) := by
  have h := C6_object_iteration
    (Json.obj [("obj", Json.obj [("a", Json.number 1), ("b", Json.number 2)])])
    "obj" ["k", "v"] [.var "k", .text "=", .var "v", .text ";"]
    [("a", Json.number 1), ("b", Json.number 2)]
    (fun e => e.1 ++ "=" ++ printValue e.2 ++ ";")
    (fun e => Json.obj (eachObjectBind ["k", "v"] e
      [("obj", Json.obj [("a", Json.number 1), ("b", Json.number 2)])]))
    rfl (by intro e he; fin_cases he <;> rfl)
  rw [h]
  rfl

/-- C7 (amended): a syntax error raised by `processFragment` carries the
clean fragment text when the loop-header regex fails to match, but the
empty-identifier check's error carries only the captured variable-name
segment of the header, not the fragment text. -/
theorem C7_error_payload (s m : String) (h : EachNode.processFragment s = .error m) :
    (matchForHeader s = none ∧ m = s) ∨
      ∃ container, matchForHeader s = some (m, container) ∧ "" ∈ splitVars m :=
  processFragment_error h

/-- C7 witness: the regex-mismatch error on `"for , x in y"` carries the
fragment's clean text itself. -/
theorem C7_witness :
    (matchForHeader "for , x in y" = none ∧ ("for , x in y" : String) = "for , x in y") ∨
      ∃ container, matchForHeader "for , x in y" = some ("for , x in y", container)
        ∧ "" ∈ splitVars "for , x in y" :=
  C7_error_payload "for , x in y" "for , x in y" rfl

/-- C7 counterexample to the claim as stated: the empty-identifier error on
`"for x,,y in z"` carries only the variable segment `"x,,y"`, which is
not the fragment text. -/
theorem C7_counterexample :
    EachNode.processFragment "for x,,y in z" = .error "x,,y"
    ∧ ("x,,y" : String) ≠ "for x,,y in z" :=
  ⟨rfl, by decide⟩

/-- C8: every typed accessor of the dynamic value model returns its defined
fallback when the value's type does not match (0 for numbers, `false`
for booleans, `""` for strings, empty array, empty map), and indexed
access by array position or object key returns the null value when the
value is not of the indexed shape, the index is out of range, or the
key is absent. -/
theorem C8_accessor_fallbacks (j : Json) :
    (j.is_number = false → j.number_value = 0 ∧ j.int_value = 0)
    ∧ (j.is_bool = false → j.bool_value = false)
    ∧ (j.is_string = false → j.string_value = "")
    ∧ (j.is_array = false → j.array_items = [])
    ∧ (j.is_object = false → j.object_items = [])
    ∧ (∀ i : Nat, j.is_array = false → j.atIndex i = Json.nul)
    ∧ (∀ items i, j = Json.arr items → items.length ≤ i → j.atIndex i = Json.nul)
    ∧ (∀ k : String, j.is_object = false → j.atKey k = Json.nul)
    ∧ (∀ entries k, j = Json.obj entries → entries.lookup k = none → j.atKey k = Json.nul) := by
  refine ⟨?_, ?_, ?_, ?_, ?_, ?_, ?_, ?_, ?_⟩
  · cases j <;> intro h <;> first | exact Bool.noConfusion h | exact ⟨rfl, rfl⟩
  · cases j <;> intro h <;> first | exact Bool.noConfusion h | rfl
  · cases j <;> intro h <;> first | exact Bool.noConfusion h | rfl
  · cases j <;> intro h <;> first | exact Bool.noConfusion h | rfl
  · cases j <;> intro h <;> first | exact Bool.noConfusion h | rfl
  · cases j <;> intro i h <;> first | exact Bool.noConfusion h | rfl
  · intro items i hj hlen
    subst hj
    exact getD_nul_of_le items i hlen
  · cases j <;> intro k h <;> first | exact Bool.noConfusion h | rfl
  · intro entries k hj hlk
    subst hj
    show (entries.lookup k).getD Json.nul = Json.nul
    rw [hlk]
    rfl

/-- C8 witness: concrete fallback values — a string value's
`number_value` is 0 and its `bool_value` is `false`; out-of-range array
indexing and an absent object key yield the null value. -/
theorem C8_witness :
    (Json.str "hi").number_value = 0 ∧ (Json.str "hi").bool_value = false
    ∧ (Json.str "hi").array_items = [] ∧ (Json.str "hi").atIndex 0 = Json.nul
    ∧ (Json.arr [Json.number 1]).atIndex 5 = Json.nul
    ∧ (Json.obj [("a", Json.number 1)]).atKey "zz" = Json.nul := by
  have h1 := C8_accessor_fallbacks (Json.str "hi")
  have h2 := C8_accessor_fallbacks (Json.arr [Json.number 1])
  have h3 := C8_accessor_fallbacks (Json.obj [("a", Json.number 1)])
  exact ⟨(h1.1 rfl).1, h1.2.1 rfl, h1.2.2.2.1 rfl, h1.2.2.2.2.2.1 0 rfl,
    h2.2.2.2.2.2.2.1 [Json.number 1] 5 rfl (by decide),
    h3.2.2.2.2.2.2.2.2 [("a", Json.number 1)] "zz" rfl rfl⟩

/-- C9: rendering is deterministic — structurally equal contexts give
identical output — and proceeds in a single forward pass: the output of
a child sequence decomposes as the output of its prefix followed by the
output of its suffix rendered from the prefix's resulting context, with
nothing re-emitted. -/
theorem C9_deterministic_single_pass :
    (∀ (n : Node) (ctx1 ctx2 : Json), ctx1 = ctx2 → renderNode n ctx1 = renderNode n ctx2)
    ∧ (∀ (ns ms : List Node) (ctx : Json),
        renderChildren (ns ++ ms) ctx =
          match renderChildren ns ctx with
          | .error e => .error e
          | .ok (o1, c1) =>
            match renderChildren ms c1 with
            | .error e => .error e
            | .ok (o2, c2) => .ok (o1 ++ o2, c2)) :=
  ⟨fun n ctx1 ctx2 h => by rw [h], renderChildren_append⟩

/-- C9 witness: determinism at a concrete node and context. -/
theorem C9_witness :
    renderNode (.text "hi") (Json.obj []) = renderNode (.text "hi") (Json.obj []) :=
  C9_deterministic_single_pass.1 (.text "hi") (Json.obj []) (Json.obj []) rfl

/-- C10: the value model's object is an ordered map keyed by string — an
entry list built by `std::map` insertion is strictly sorted in ascending
lexicographic key order, is independent of the insertion order of
distinct keys, and `EachNode::render` over such an object visits the
entries in exactly that stored (sorted) order. -/
theorem C10_object_sorted_iteration (ps : List (String × Json)) :
    (buildObj ps).Pairwise entryKeyLt
    ∧ (∀ ps2, ps.Perm ps2 → (ps.map Prod.fst).Nodup → buildObj ps = buildObj ps2)
    ∧ (∀ (ctx : Json) (container : String) (vars : List String) (children : List Node)
        (f : String × Json → String) (fc : String × Json → Json),
        ExpressionParser.parse ctx container = .obj (buildObj ps) →
        (∀ e ∈ buildObj ps,
          renderChildren children (Json.obj (eachObjectBind vars e ctx.object_items))
            = .ok (f e, fc e)) →
        renderNode (.each container vars children) ctx
          = .ok (strJoin ((buildObj ps).map f), ctx)) :=
  ⟨buildObj_pairwise ps, fun _ hperm hnd => buildObj_perm hperm hnd,
    fun _ _ vars children f fc hc hbody =>
      renderNode_each_obj_formula vars children f fc hc hbody⟩

/-- C10 witness: inserting `b` then `a` produces the same object as
inserting `a` then `b`, stored in ascending key order. -/
theorem C10_witness :
    buildObj [("b", Json.number 2), ("a", Json.number 1)]
      = buildObj [("a", Json.number 1), ("b", Json.number 2)]
    ∧ buildObj [("b", Json.number 2), ("a", Json.number 1)]
      = [("a", Json.number 1), ("b", Json.number 2)] := by
  have h := (C10_object_sorted_iteration [("b", Json.number 2), ("a", Json.number 1)]).2.1
    [("a", Json.number 1), ("b", Json.number 2)]
    (List.Perm.swap ("a", Json.number 1) ("b", Json.number 2) [])
    (by decide)
  exact ⟨h, rfl⟩

end GreenZone
